import Mathlib

/-!
Verification of the sheet-to-store sync engine of `sheets-dialer-app`
(`src/services/sheetsToSupabaseSync.js`), shallowly embedded in Lean.

Modelling conventions:
* A JS object is an ordered association list (`Obj`); property assignment
  updates the value in place when the key exists and appends otherwise,
  matching JS property-insertion-order semantics.
* The wall clock is an explicit stream `clock : Nat → String`; the k-th call
  to `new Date().toISOString()` during a pass returns `clock k`.  The pass
  draws `clock 0` for `syncStartTime`, one further value per mapped record
  (inside `mapSheetRowToLeadObject`), and a final value for `syncEndTime`.
* The spreadsheet API is an environment `Env` holding the sheets (content
  rows plus the declared grid `rowCount` used by the metadata read), a fault
  injector `failAt` for ranged data reads, and a fault flag for the store
  write.  A ranged read returns the content rows intersecting the range,
  like the values API (trailing empty rows are absent from `rows`).
* Thrown JS errors are `Except.error`; `syncSheetsToSupabase` is total, so
  no error escapes it, and its trace records the read calls issued and the
  payloads submitted to the store's upsert.
-/

deriving instance DecidableEq for Except

namespace SheetsDialer

/-- A JS value stored in a lead object: a string cell or `null`. -/
inductive CellVal where
  | str (s : String)
  | null
deriving DecidableEq, Repr

/-- A JS object as an ordered association list of properties. -/
abbrev Obj := List (String × CellVal)

/-- Property read: first binding of the key, if any. -/
def objLookup (k : String) : Obj → Option CellVal
  | [] => none
  | (k', v) :: rest => if k' = k then some v else objLookup k rest

/-- Property assignment, JS semantics: overwrite in place if the key exists,
append otherwise. -/
def objSet : Obj → String → CellVal → Obj
  | [], k, v => [(k, v)]
  | (k', v') :: rest, k, v =>
      if k' = k then (k', v) :: rest else (k', v') :: objSet rest k v

/-- The keys of an object, in property order. -/
def objKeys (o : Obj) : List String := o.map Prod.fst

/-- The whitespace class of the JS regex `\s` (the characters relevant to
header cells; the full Unicode class extends this list with further exotic
space code points in the same way). -/
def isJsWs (c : Char) : Bool :=
  c = ' ' || c = '\t' || c = '\n' || c = '\r' ||
  c = (Char.ofNat 11) || c = (Char.ofNat 12) || c = (Char.ofNat 0xa0) ||
  c = (Char.ofNat 0x2028) || c = (Char.ofNat 0x2029) || c = (Char.ofNat 0xfeff)

/-- ASCII lowercasing of one character, as `toLowerCase` acts on the
characters appearing in header cells. -/
def lowerChar (c : Char) : Char :=
  if 'A' ≤ c ∧ c ≤ 'Z' then Char.ofNat (c.toNat + 32) else c

/-- Scan implementing `.replace(/\s+/g, '_')`: each maximal whitespace run
contributes a single underscore.  The Boolean argument records whether the
previous character was whitespace (i.e. whether the current run has already
produced its underscore). -/
def replaceWsAux : Bool → List Char → List Char
  | _, [] => []
  | prevWs, c :: cs =>
      if isJsWs c then
        if prevWs then replaceWsAux true cs else '_' :: replaceWsAux true cs
      else c :: replaceWsAux false cs

/-- Header normalization from `mapSheetRowToLeadObject`:
`header.toLowerCase().replace(/\s+/g, '_')`. -/
def normalizeHeader (s : String) : String :=
  ⟨replaceWsAux false (s.data.map lowerChar)⟩

/-- The value assigned for column `index`: the row's cell when
`index < dataRow.length`, otherwise `null` (ragged-row tolerance). -/
def cellAt (dataRow : List String) (index : Nat) : CellVal :=
  match dataRow.get? index with
  | some v => .str v
  | none => .null

/-- The `headerRow.forEach((header, index) => ...)` loop of
`mapSheetRowToLeadObject`: assign each normalized header the row cell at the
same index, or `null` when the row is shorter. -/
def mapFields (dataRow : List String) : Nat → List String → Obj → Obj
  | _, [], lead => lead
  | index, header :: rest, lead =>
      mapFields dataRow (index + 1) rest
        (objSet lead (normalizeHeader header) (cellAt dataRow index))

/-- `mapSheetRowToLeadObject(headerRow, dataRow, rowIndex)`.  The source
computes `last_sync: new Date().toISOString()` inside the mapper; the value
that call returns is passed here explicitly as `now` (the caller threads the
clock stream). -/
def mapSheetRowToLeadObject (headerRow dataRow : List String) (rowIndex : Nat)
    (now : String) : Obj :=
  mapFields dataRow 0 headerRow
    [("sheet_row_id", .str (Nat.repr rowIndex)), ("last_sync", .str now)]

/-- A sheet tab: its content rows (row r of the grid is `rows[r-1]`; trailing
empty rows are not materialized, as in the values API) and the declared grid
row count reported by the metadata read. -/
structure Sheet where
  rows : List (List String)
  rowCount : Nat
deriving DecidableEq, Repr

/-- The external world: the spreadsheet's sheets by title, a fault injector
for ranged data reads (keyed by the start row of the range), and a fault
flag for the store write. -/
structure Env where
  sheets : List (String × Sheet)
  failAt : Nat → Bool
  writeFails : Bool

/-- A ranged values read `A{s}:Z{e}`: the content rows intersecting rows
`s..e` (1-based, inclusive). -/
def valuesGet (sh : Sheet) (s e : Nat) : List (List String) :=
  (sh.rows.drop (s - 1)).take (e + 1 - s)

/-- One network read issued against the spreadsheet API. -/
inductive ReadCall where
  | header (sheetName : String)
  | metadata (sheetName : String)
  | range (sheetName : String) (startRow endRow : Nat)
deriving DecidableEq, Repr

/-- One element of the `allData` array built by `fetchSheetData`. -/
structure FetchItem where
  headerRow : List String
  dataRow : List String
  rowIndex : Nat
deriving DecidableEq, Repr

/-- The `rows.forEach((row, index) => allData.push(...))` body: items for one
batch, with `rowIndex = startRow + index` realized by starting `idx` at the
batch's start row. -/
def itemsFrom (header : List String) : Nat → List (List String) → List FetchItem
  | _, [] => []
  | idx, row :: rest => ⟨header, row, idx⟩ :: itemsFrom header (idx + 1) rest

/-- The batch loop of `fetchSheetData`:
`for (let startRow = 2; startRow < totalRows; startRow += batchSize)`.
`fuel` bounds the number of iterations; callers pass `totalRows`, which
suffices for every positive `batchSize` (the loop runs at most
`totalRows - 2` times), and for `batchSize = 0` the first read is the empty
range `A s:Z (s-1)`, so the zero-rows break fires at once. -/
def fetchBatches (env : Env) (sh : Sheet) (sheetName : String)
    (header : List String) (batchSize totalRows : Nat) :
    Nat → Nat → List ReadCall × Except String (List FetchItem)
  | 0, _ => ([], .ok [])
  | fuel + 1, startRow =>
      if startRow < totalRows then
        let endRow := min (startRow + batchSize - 1) totalRows
        let call := ReadCall.range sheetName startRow endRow
        if env.failAt startRow then ([call], .error "upstream fetch error")
        else
          let rows := valuesGet sh startRow endRow
          if rows.isEmpty then ([call], .ok [])
          else
            let res := fetchBatches env sh sheetName header batchSize totalRows
              fuel (startRow + batchSize)
            (call :: res.1, res.2.map (itemsFrom header startRow rows ++ ·))
      else ([], .ok [])

/-- `fetchSheetData({sheetName, batchSize})`: header read, metadata read,
then the batch loop.  A missing sheet makes the very first API call fail; an
absent header row raises `Could not find header row in sheet` (the source
reaches the same outcome through `values[0]` being undefined).  Returns the
trace of reads together with the collected items or the thrown error. -/
def fetchSheetData (env : Env) (sheetName : String) (batchSize : Nat) :
    List ReadCall × Except String (List FetchItem) :=
  match env.sheets.lookup sheetName with
  | none => ([.header sheetName], .error "sheet not found")
  | some sh =>
    match (valuesGet sh 1 1).head? with
    | none => ([.header sheetName], .error "Could not find header row in sheet")
    | some headerRow =>
        let res := fetchBatches env sh sheetName headerRow batchSize
          sh.rowCount sh.rowCount 2
        (.header sheetName :: .metadata sheetName :: res.1, res.2)

/-- Whether two records collide on the upsert conflict target
`sheet_row_id`.  As in the store, a record without the key (or with a null
key) conflicts with nothing. -/
def sameId (a b : Obj) : Bool :=
  match objLookup "sheet_row_id" a, objLookup "sheet_row_id" b with
  | some (.str x), some (.str y) => decide (x = y)
  | _, _ => false

/-- Upsert of one record: overwrite the first record with the same conflict
key, append when there is none. -/
def upsertOne : List Obj → Obj → List Obj
  | [], lead => [lead]
  | r :: rest, lead =>
      if sameId r lead then lead :: rest else r :: upsertOne rest lead

/-- The store-side effect of `upsert(leads, { onConflict: 'sheet_row_id' })`:
records applied in payload order. -/
def upsertAll (store : List Obj) (leads : List Obj) : List Obj :=
  leads.foldl upsertOne store

/-- `writeLeadsToSupabase(leads)`: one bulk upsert; on store failure the
error is rethrown, otherwise `{success: true, count: leads.length}`. -/
def writeLeadsToSupabase (env : Env) (store : List Obj) (leads : List Obj) :
    Except String (List Obj × Nat) :=
  if env.writeFails then .error "store write error"
  else .ok (upsertAll store leads, leads.length)

/-- The result object returned by `syncSheetsToSupabase`. -/
inductive SyncResult where
  | ok (syncStartTime syncEndTime : String) (rowsProcessed : Nat)
  | fail (syncStartTime syncEndTime : String) (error : String)
deriving DecidableEq, Repr

/-- The `syncStartTime` field of a result. -/
def SyncResult.syncStartTime : SyncResult → String
  | .ok t _ _ => t
  | .fail t _ _ => t

/-- The `success` field of a result. -/
def SyncResult.success : SyncResult → Bool
  | .ok _ _ _ => true
  | .fail _ _ _ => false

/-- The options object of `syncSheetsToSupabase`, with the source defaults.
`forceFullSync` is carried exactly as in the source, which destructures it
but never reads it again; `onError` only logs and is not modelled. -/
structure SyncOptions where
  sheetName : String := "Sheet1"
  batchSize : Nat := 50
  forceFullSync : Bool := false

/-- The `sheetData.map(...)` step of the sync: the i-th record is mapped with
the clock value drawn at that moment (draw `1 + i`; draw 0 was
`syncStartTime`). -/
def mapLeads (clock : Nat → String) : Nat → List FetchItem → List Obj
  | _, [] => []
  | i, it :: rest =>
      mapSheetRowToLeadObject it.headerRow it.dataRow it.rowIndex
        (clock (1 + i)) :: mapLeads clock (i + 1) rest

/-- Everything observable about one pass: the returned result, the payloads
submitted to the store's upsert (in call order, also when the write fails),
the resulting store content, and the spreadsheet reads issued. -/
structure SyncOutcome where
  result : SyncResult
  writeCalls : List (List Obj)
  store : List Obj
  reads : List ReadCall
deriving DecidableEq, Repr

/-- `syncSheetsToSupabase(options)`: fetch, map, one bulk write, with every
error caught and turned into a failure result. -/
def syncSheetsToSupabase (env : Env) (store : List Obj) (clock : Nat → String)
    (opts : SyncOptions) : SyncOutcome :=
  let syncStartTime := clock 0
  match fetchSheetData env opts.sheetName opts.batchSize with
  | (reads, .error e) =>
      ⟨.fail syncStartTime (clock 1) e, [], store, reads⟩
  | (reads, .ok sheetData) =>
      let leads := mapLeads clock 0 sheetData
      match writeLeadsToSupabase env store leads with
      | .error e =>
          ⟨.fail syncStartTime (clock (1 + leads.length)) e, [leads], store, reads⟩
      | .ok (store', _count) =>
          ⟨.ok syncStartTime (clock (1 + leads.length)) leads.length,
            [leads], store', reads⟩

/-! Spec-side definitions, written from the specification's words, for the
refinement comparisons. -/

/-- Interior-only whitespace normalization, following the spec's words
"lowercase, interior whitespace runs replaced with a single underscore":
a whitespace character is rewritten only when some non-whitespace character
precedes it and some non-whitespace character follows it; leading and
trailing whitespace is kept.  `seen` records whether a non-whitespace
character has occurred, `prevWs` whether the current run already produced
its underscore. -/
def interiorWsAux : Bool → Bool → List Char → List Char
  | _, _, [] => []
  | seen, prevWs, c :: cs =>
      if isJsWs c then
        if !seen then c :: interiorWsAux seen true cs
        else if cs.any (fun x => !isJsWs x) then
          if prevWs then interiorWsAux seen true cs
          else '_' :: interiorWsAux seen true cs
        else c :: interiorWsAux seen true cs
      else c :: interiorWsAux true false cs

/-- The normalization the claim describes: lowercase, then replace interior
whitespace runs only. -/
def specNormalizeInterior (s : String) : String :=
  ⟨interiorWsAux false false (s.data.map lowerChar)⟩

/-- Run-based reading of `.replace(/\s+/g, '_')` for the amended claim:
each maximal whitespace run, wherever it occurs, becomes one underscore. -/
def collapseRuns : List Char → List Char
  | [] => []
  | c :: cs =>
      if isJsWs c then '_' :: collapseRuns (cs.dropWhile isJsWs)
      else c :: collapseRuns cs
termination_by l => l.length
decreasing_by
  · simpa using Nat.lt_succ_of_le (List.dropWhile_sublist isJsWs).length_le
  · simp

/-- Lowercasing followed by run collapsing, the spec-side normalization the
amended C7 compares against. -/
def specNormalizeAllRuns (s : String) : String :=
  ⟨collapseRuns (s.data.map lowerChar)⟩

/-! Concrete inputs used by the claims. -/

/-- The sheet of the spec's worked example: header plus Alice and Bob, with
the declared row count 3 equal to the data extent, and no injected faults. -/
def envThreeRows : Env :=
  { sheets := [("Sheet1",
      { rows := [["Name", "Email"], ["Alice", "a@x.com"], ["Bob", "b@x.com"]],
        rowCount := 3 })],
    failAt := fun _ => false,
    writeFails := false }

/-- One data row under a single `Name` column, with grid row count 3. -/
def envOneRow : Env :=
  { sheets := [("Sheet1", { rows := [["Name"], ["Alice"]], rowCount := 3 })],
    failAt := fun _ => false,
    writeFails := false }

/-- A sheet whose only header cell normalizes to `sheet_row_id`, with two
data rows holding the same cell value. -/
def envRowIdHeader : Env :=
  { sheets := [("Sheet1",
      { rows := [["Sheet Row Id"], ["7"], ["7"]], rowCount := 4 })],
    failAt := fun _ => false,
    writeFails := false }

/-- Three data rows, with the ranged read starting at row 4 failing, so that
two one-row batches succeed before the third raises. -/
def envFailThird : Env :=
  { sheets := [("Sheet1",
      { rows := [["Name"], ["Alice"], ["Bob"], ["Carol"]], rowCount := 9 })],
    failAt := fun s => s = 4,
    writeFails := false }

/-- A sheet present in the spreadsheet but with no rows at all, so the
header range read yields no row. -/
def envNoHeader : Env :=
  { sheets := [("Sheet1", { rows := [], rowCount := 5 })],
    failAt := fun _ => false,
    writeFails := false }

/-- A clock stream whose k-th reading is the decimal numeral of k, making
the draw order of timestamps observable. -/
def natClock : Nat → String := fun n => Nat.repr n

/-! Shared helper lemmas. -/

/-- When the fetch raises, the pass returns the failure result built from
the first two clock readings, submits no write, and leaves the store
untouched. -/
theorem sync_of_fetch_error (env : Env) (store : List Obj) (clock : Nat → String)
    (opts : SyncOptions) (tr : List ReadCall) (e : String)
    (h : fetchSheetData env opts.sheetName opts.batchSize = (tr, .error e)) :
    syncSheetsToSupabase env store clock opts =
      ⟨.fail (clock 0) (clock 1) e, [], store, tr⟩ := by
  simp [syncSheetsToSupabase, h]

/-- A sheet whose grid holds no rows makes the header read of
`fetchSheetData` fail before any data read. -/
theorem fetchSheetData_no_header (env : Env) (sheetName : String)
    (batchSize : Nat) (sh : Sheet)
    (hsheet : env.sheets.lookup sheetName = some sh) (hrows : sh.rows = []) :
    fetchSheetData env sheetName batchSize =
      ([.header sheetName], .error "Could not find header row in sheet") := by
  simp [fetchSheetData, hsheet, valuesGet, hrows]

/-! Claim theorems settled by evaluating the embedded code on concrete
inputs. -/

/-- C1: over the sheet `[["Name","Email"],["Alice","a@x.com"],["Bob","b@x.com"]]`
with declared row count 3 and batchSize 1, the claim expects the two records
for rows 2 and 3.  The batch loop `for (startRow = 2; startRow < totalRows;
startRow += batchSize)` stops before `startRow = 3`, so the pass reads only
the range `A2:Z2` and produces exactly Alice's record: the declared last row
is skipped whenever it falls on a batch start. -/
theorem c1_declared_three_rows_batch_one_fetches_only_alice :
    syncSheetsToSupabase envThreeRows [] (fun _ => "T")
        ⟨"Sheet1", 1, false⟩ =
      { result := .ok "T" "T" 1,
        writeCalls := [[[("sheet_row_id", .str "2"), ("last_sync", .str "T"),
          ("name", .str "Alice"), ("email", .str "a@x.com")]]],
        store := [[("sheet_row_id", .str "2"), ("last_sync", .str "T"),
          ("name", .str "Alice"), ("email", .str "a@x.com")]],
        reads := [.header "Sheet1", .metadata "Sheet1",
          .range "Sheet1" 2 2] } := by
  decide

/-- C5: on the same sheet, batch size 1 submits only Alice's record while
batch size 2 submits Alice's and Bob's, so the read-chunking parameter does
change which data rows a pass fetches and writes (same off-by-one as C1). -/
theorem c5_batch_size_changes_fetched_rows :
    (syncSheetsToSupabase envThreeRows [] (fun _ => "T")
        ⟨"Sheet1", 1, false⟩).writeCalls =
      [[[("sheet_row_id", .str "2"), ("last_sync", .str "T"),
        ("name", .str "Alice"), ("email", .str "a@x.com")]]] ∧
    (syncSheetsToSupabase envThreeRows [] (fun _ => "T")
        ⟨"Sheet1", 2, false⟩).writeCalls =
      [[[("sheet_row_id", .str "2"), ("last_sync", .str "T"),
        ("name", .str "Alice"), ("email", .str "a@x.com")],
        [("sheet_row_id", .str "3"), ("last_sync", .str "T"),
        ("name", .str "Bob"), ("email", .str "b@x.com")]]] ∧
    (syncSheetsToSupabase envThreeRows [] (fun _ => "T")
        ⟨"Sheet1", 1, false⟩).writeCalls ≠
      (syncSheetsToSupabase envThreeRows [] (fun _ => "T")
        ⟨"Sheet1", 2, false⟩).writeCalls := by
  decide

/-- C3: whenever the fetch phase raises (in particular when a ranged data
read fails after earlier batches succeeded), the pass submits no write call,
leaves the store untouched, and returns the failure result built from the
caught error; the error never escapes `syncSheetsToSupabase`, which is a
total function into `SyncOutcome`. -/
theorem c3_fetch_error_writes_nothing (env : Env) (store : List Obj)
    (clock : Nat → String) (opts : SyncOptions) (tr : List ReadCall) (e : String)
    (h : fetchSheetData env opts.sheetName opts.batchSize = (tr, .error e)) :
    (syncSheetsToSupabase env store clock opts).writeCalls = [] ∧
    (syncSheetsToSupabase env store clock opts).store = store ∧
    (syncSheetsToSupabase env store clock opts).result =
      .fail (clock 0) (clock 1) e := by
  rw [sync_of_fetch_error env store clock opts tr e h]
  exact ⟨rfl, rfl, rfl⟩

/-- Witness for C3: with one `Name` column, three data rows, batch size 1 and
the read at row 4 failing, two batches succeed before the third raises, and
the pass writes nothing. -/
theorem c3_witness :
    fetchSheetData envFailThird "Sheet1" 1 =
      ([.header "Sheet1", .metadata "Sheet1", .range "Sheet1" 2 2,
        .range "Sheet1" 3 3, .range "Sheet1" 4 4],
        .error "upstream fetch error") ∧
    (syncSheetsToSupabase envFailThird [] natClock ⟨"Sheet1", 1, false⟩).writeCalls
      = [] ∧
    (syncSheetsToSupabase envFailThird [] natClock ⟨"Sheet1", 1, false⟩).store
      = [] :=
  ⟨by decide,
    (c3_fetch_error_writes_nothing envFailThird [] natClock ⟨"Sheet1", 1, false⟩
      [.header "Sheet1", .metadata "Sheet1", .range "Sheet1" 2 2,
        .range "Sheet1" 3 3, .range "Sheet1" 4 4]
      "upstream fetch error" (by decide)).1,
    (c3_fetch_error_writes_nothing envFailThird [] natClock ⟨"Sheet1", 1, false⟩
      [.header "Sheet1", .metadata "Sheet1", .range "Sheet1" 2 2,
        .range "Sheet1" 3 3, .range "Sheet1" 4 4]
      "upstream fetch error" (by decide)).2.1⟩

/-- C8: when the sheet named by the options exists but its header range read
yields no rows, the pass returns a failure result and issues zero write
calls, leaving the store untouched. -/
theorem c8_no_header_fails_without_writes (env : Env) (store : List Obj)
    (clock : Nat → String) (opts : SyncOptions) (sh : Sheet)
    (hsheet : env.sheets.lookup opts.sheetName = some sh)
    (hrows : sh.rows = []) :
    (syncSheetsToSupabase env store clock opts).result.success = false ∧
    (syncSheetsToSupabase env store clock opts).writeCalls = [] ∧
    (syncSheetsToSupabase env store clock opts).store = store := by
  have hf := fetchSheetData_no_header env opts.sheetName opts.batchSize sh
    hsheet hrows
  rw [sync_of_fetch_error env store clock opts _ _ hf]
  exact ⟨rfl, rfl, rfl⟩

/-- Witness for C8: a sheet with declared row count 5 but no rows at all
fails the pass with no write. -/
theorem c8_witness :
    envNoHeader.sheets.lookup "Sheet1" = some ⟨[], 5⟩ ∧
    ((syncSheetsToSupabase envNoHeader [] natClock
        ⟨"Sheet1", 50, false⟩).result.success = false ∧
      (syncSheetsToSupabase envNoHeader [] natClock
        ⟨"Sheet1", 50, false⟩).writeCalls = [] ∧
      (syncSheetsToSupabase envNoHeader [] natClock
        ⟨"Sheet1", 50, false⟩).store = []) :=
  ⟨by decide,
    c8_no_header_fails_without_writes envNoHeader [] natClock
      ⟨"Sheet1", 50, false⟩ ⟨[], 5⟩ (by decide) rfl⟩

/-- C9: `forceFullSync` is destructured but never read again, so two runs
differing only in that flag perform the same reads, submit the same records,
and return the same result — the entire outcome coincides. -/
theorem c9_forceFullSync_has_no_effect (env : Env) (store : List Obj)
    (clock : Nat → String) (name : String) (bs : Nat) (b1 b2 : Bool) :
    syncSheetsToSupabase env store clock ⟨name, bs, b1⟩ =
      syncSheetsToSupabase env store clock ⟨name, bs, b2⟩ := rfl

/-- Counterexample to C4: the mapper stamps each record with a fresh
`new Date()` reading, not the captured `syncStartTime`.  With the clock
stream `natClock`, the single produced record carries `last_sync = "1"`
while the pass's `syncStartTime` is `"0"`. -/
theorem c4_counterexample :
    (syncSheetsToSupabase envOneRow [] natClock
        ⟨"Sheet1", 50, false⟩).writeCalls =
      [[[("sheet_row_id", .str "2"), ("last_sync", .str "1"),
        ("name", .str "Alice")]]] ∧
    (syncSheetsToSupabase envOneRow [] natClock
        ⟨"Sheet1", 50, false⟩).result.syncStartTime = "0" ∧
    objLookup "last_sync"
        [("sheet_row_id", .str "2"), ("last_sync", .str "1"),
          ("name", .str "Alice")] ≠ some (.str "0") := by
  decide

/-- Counterexample to C6: the mapped record always also carries the base
keys `sheet_row_id` and `last_sync`, so its keys are not exactly the
normalized header names; and with duplicate headers the earlier column's
value is overwritten, so the key at position 0 does not get `R[0]`. -/
theorem c6_counterexample :
    objKeys (mapSheetRowToLeadObject ["Name"] ["Alice"] 2 "t") ≠ ["name"] ∧
    objLookup "a" (mapSheetRowToLeadObject ["A", "A"] ["x", "y"] 2 "t") ≠
      some (.str "x") := by
  decide

/-- Counterexample to C7: `.replace(/\s+/g, '_')` rewrites every whitespace
run, not only interior ones: on `" Name"` the code yields `"_name"` while
the interior-only normalization the claim describes yields `" name"`. -/
theorem c7_counterexample :
    normalizeHeader " Name" = "_name" ∧
    specNormalizeInterior " Name" = " name" ∧
    normalizeHeader " Name" ≠ specNormalizeInterior " Name" := by
  decide

/-- Counterexample to C10: a header cell normalizing to `sheet_row_id` makes
the mapper overwrite the row identifier with the cell value, so one pass can
submit two records with the same conflict key. -/
theorem c10_counterexample :
    (syncSheetsToSupabase envRowIdHeader [] (fun _ => "T")
        ⟨"Sheet1", 50, false⟩).writeCalls =
      [[[("sheet_row_id", .str "7"), ("last_sync", .str "T")],
        [("sheet_row_id", .str "7"), ("last_sync", .str "T")]]] ∧
    sameId [("sheet_row_id", .str "7"), ("last_sync", .str "T")]
      [("sheet_row_id", .str "7"), ("last_sync", .str "T")] = true := by
  decide

/-! Equivalence of the two readings of `.replace(/\s+/g, '_')`. -/

/-- Inside a whitespace run the scan just skips to the end of the run. -/
theorem replaceWsAux_true_eq_dropWhile (cs : List Char) :
    replaceWsAux true cs = replaceWsAux false (cs.dropWhile isJsWs) := by
  induction cs with
  | nil => rfl
  | cons c cs ih =>
      by_cases h : isJsWs c = true
      · simpa [replaceWsAux, h, List.dropWhile_cons] using ih
      · simp only [Bool.not_eq_true] at h
        simp [replaceWsAux, h, List.dropWhile_cons]

/-- The character scan and the run-based replacement agree: each maximal
whitespace run, wherever it sits in the string, becomes one underscore. -/
theorem collapseRuns_eq_replaceWsAux (l : List Char) :
    collapseRuns l = replaceWsAux false l := by
  induction l using collapseRuns.induct with
  | case1 => simp [collapseRuns, replaceWsAux]
  | case2 c cs h ih =>
      simp [collapseRuns, replaceWsAux, h, ih, replaceWsAux_true_eq_dropWhile]
  | case3 c cs h ih =>
      simp [collapseRuns, replaceWsAux, h, ih]

/-- C7 (amended): normalization lowercases the header cell and replaces
every maximal whitespace run — leading and trailing runs included, not only
interior ones — with a single underscore; in particular `"Full Name"`
normalizes to `full_name`. -/
theorem c7_amended :
    (∀ s : String, normalizeHeader s = specNormalizeAllRuns s) ∧
    normalizeHeader "Full Name" = "full_name" :=
  ⟨fun s => by
      unfold normalizeHeader specNormalizeAllRuns
      rw [collapseRuns_eq_replaceWsAux],
    by decide⟩

/-! Object algebra: how `objSet` interacts with `objLookup` and `objKeys`. -/

/-- Reading the key just assigned returns the assigned value. -/
theorem objLookup_objSet_self (o : Obj) (k : String) (v : CellVal) :
    objLookup k (objSet o k v) = some v := by
  induction o with
  | nil => simp [objSet, objLookup]
  | cons p rest ih =>
      obtain ⟨k', v'⟩ := p
      by_cases h : k' = k <;> simp [objSet, objLookup, h, ih]

/-- Assignment does not change the value of any other key. -/
theorem objLookup_objSet_ne (o : Obj) (k k₁ : String) (v : CellVal)
    (h : k₁ ≠ k) :
    objLookup k₁ (objSet o k v) = objLookup k₁ o := by
  induction o with
  | nil => simp [objSet, objLookup, Ne.symm h]
  | cons p rest ih =>
      obtain ⟨k', v'⟩ := p
      by_cases hk : k' = k
      · subst hk
        simp [objSet, objLookup, Ne.symm h]
      · by_cases hk1 : k' = k₁ <;> simp [objSet, objLookup, hk, hk1, h, ih]

/-- Assignment keeps the key order, appending the key only when new. -/
theorem objKeys_objSet (o : Obj) (k : String) (v : CellVal) :
    objKeys (objSet o k v) =
      if k ∈ objKeys o then objKeys o else objKeys o ++ [k] := by
  induction o with
  | nil => simp [objSet, objKeys]
  | cons p rest ih =>
      obtain ⟨k', v'⟩ := p
      by_cases hk : k' = k
      · subst hk
        simp [objSet, objKeys]
      · simp only [objSet, if_neg hk, objKeys, List.map_cons] at ih ⊢
        rw [ih]
        by_cases hm : k ∈ List.map Prod.fst rest <;>
          simp [hm, Ne.symm hk]

/-- A key distinct from both an object's keys and the assigned key is still
absent after the assignment. -/
theorem not_mem_objKeys_objSet (acc : Obj) (khd k : String) (v : CellVal)
    (h1 : khd ∉ objKeys acc) (h2 : k ∉ objKeys acc) (h3 : k ≠ khd) :
    k ∉ objKeys (objSet acc khd v) := by
  rw [objKeys_objSet, if_neg h1]
  simp [h2, h3]

/-! The header loop: field names not produced by any header are untouched,
produced ones are appended in header order with positionally aligned
values. -/

/-- Keys no header normalizes to keep the value they had before the loop. -/
theorem objLookup_mapFields_of_not_mem (R : List String) (k : String) :
    ∀ (H : List String) (i : Nat) (acc : Obj),
      (∀ h ∈ H, normalizeHeader h ≠ k) →
      objLookup k (mapFields R i H acc) = objLookup k acc := by
  intro H
  induction H with
  | nil => intro i acc _; rfl
  | cons hd tl ih =>
      intro i acc hne
      simp only [mapFields]
      rw [ih (i + 1) _ fun h hm => hne h (List.mem_cons_of_mem _ hm),
        objLookup_objSet_ne _ _ _ _ (hne hd (List.mem_cons_self _ _)).symm]

/-- When the normalized header names are distinct and fresh for the
accumulator, the loop appends exactly those names to the key list. -/
theorem objKeys_mapFields (R : List String) :
    ∀ (H : List String) (i : Nat) (acc : Obj),
      (H.map normalizeHeader).Nodup →
      (∀ h ∈ H, normalizeHeader h ∉ objKeys acc) →
      objKeys (mapFields R i H acc) = objKeys acc ++ H.map normalizeHeader := by
  intro H
  induction H with
  | nil => intro i acc _ _; simp [mapFields]
  | cons hd tl ih =>
      intro i acc hnd hni
      have hhd : normalizeHeader hd ∉ tl.map normalizeHeader :=
        (List.nodup_cons.mp hnd).1
      have hacc : ∀ h ∈ tl,
          normalizeHeader h ∉
            objKeys (objSet acc (normalizeHeader hd) (cellAt R i)) := by
        intro h hm
        exact not_mem_objKeys_objSet _ _ _ _ (hni hd (List.mem_cons_self _ _))
          (hni h (List.mem_cons_of_mem _ hm))
          fun heq => hhd (heq ▸ List.mem_map_of_mem _ hm)
      simp only [mapFields]
      rw [ih (i + 1) _ (List.nodup_cons.mp hnd).2 hacc,
        objKeys_objSet, if_neg (hni hd (List.mem_cons_self _ _))]
      simp

/-- Each header's normalized name ends up bound to the row cell at that
header's column index. -/
theorem objLookup_mapFields_self (R : List String) :
    ∀ (H : List String) (i : Nat) (acc : Obj),
      (H.map normalizeHeader).Nodup →
      (∀ h ∈ H, normalizeHeader h ∉ objKeys acc) →
      ∀ (j : Nat) (hj : j < H.length),
        objLookup (normalizeHeader (H.get ⟨j, hj⟩)) (mapFields R i H acc) =
          some (cellAt R (i + j)) := by
  intro H
  induction H with
  | nil => intro i acc _ _ j hj; exact absurd hj (by simp)
  | cons hd tl ih =>
      intro i acc hnd hni j hj
      have hhd : normalizeHeader hd ∉ tl.map normalizeHeader :=
        (List.nodup_cons.mp hnd).1
      have hacc : ∀ h ∈ tl,
          normalizeHeader h ∉
            objKeys (objSet acc (normalizeHeader hd) (cellAt R i)) := by
        intro h hm
        exact not_mem_objKeys_objSet _ _ _ _ (hni hd (List.mem_cons_self _ _))
          (hni h (List.mem_cons_of_mem _ hm))
          fun heq => hhd (heq ▸ List.mem_map_of_mem _ hm)
      simp only [mapFields]
      match j with
      | 0 =>
          show objLookup (normalizeHeader hd)
            (mapFields R (i + 1) tl
              (objSet acc (normalizeHeader hd) (cellAt R i))) =
            some (cellAt R (i + 0))
          rw [objLookup_mapFields_of_not_mem R _ tl (i + 1) _
              fun h hm heq => hhd (by
                rw [← heq]; exact List.mem_map_of_mem _ hm)]
          rw [objLookup_objSet_self]
          simp
      | j + 1 =>
          have hj' : j < tl.length := by simpa using Nat.lt_of_succ_lt_succ hj
          have := ih (i + 1) _ (List.nodup_cons.mp hnd).2 hacc j hj'
          have harith : i + 1 + j = i + (j + 1) := by omega
          rw [harith] at this
          exact this

/-- The base fields of a mapped record: any key no header normalizes to is
read from the base object holding `sheet_row_id` and `last_sync`. -/
theorem objLookup_mapRow_base (H R : List String) (idx : Nat) (ts : String)
    (k : String) (hk : ∀ h ∈ H, normalizeHeader h ≠ k) :
    objLookup k (mapSheetRowToLeadObject H R idx ts) =
      objLookup k
        [("sheet_row_id", CellVal.str (Nat.repr idx)),
          ("last_sync", CellVal.str ts)] := by
  unfold mapSheetRowToLeadObject
  exact objLookup_mapFields_of_not_mem R k H 0 _ hk

/-- When no header cell normalizes to `last_sync`, the mapped record's
`last_sync` is exactly the timestamp drawn by the mapper. -/
theorem objLookup_last_sync_mapRow (H R : List String) (idx : Nat)
    (ts : String) (hk : "last_sync" ∉ H.map normalizeHeader) :
    objLookup "last_sync" (mapSheetRowToLeadObject H R idx ts) =
      some (.str ts) := by
  rw [objLookup_mapRow_base H R idx ts "last_sync"
    fun h hm heq => hk (heq ▸ List.mem_map_of_mem _ hm)]
  rfl

/-- When no header cell normalizes to `sheet_row_id`, the mapped record's
identifier is the decimal string of its row index. -/
theorem objLookup_sheet_row_id_mapRow (H R : List String) (idx : Nat)
    (ts : String) (hk : "sheet_row_id" ∉ H.map normalizeHeader) :
    objLookup "sheet_row_id" (mapSheetRowToLeadObject H R idx ts) =
      some (.str (Nat.repr idx)) := by
  rw [objLookup_mapRow_base H R idx ts "sheet_row_id"
    fun h hm heq => hk (heq ▸ List.mem_map_of_mem _ hm)]
  rfl

/-- C6 (amended): for a header row whose normalized names are pairwise
distinct and distinct from the fixed base fields, the mapped record's keys
are exactly `sheet_row_id` and `last_sync` followed by the normalized names
of H in order; the key at position i holds `R[i]` when `i < |R|` and `null`
for every header position at or beyond `len(R)`. -/
theorem c6_amended (H R : List String) (idx : Nat) (ts : String)
    (hnd : (H.map normalizeHeader).Nodup)
    (h1 : "sheet_row_id" ∉ H.map normalizeHeader)
    (h2 : "last_sync" ∉ H.map normalizeHeader) :
    objKeys (mapSheetRowToLeadObject H R idx ts) =
      "sheet_row_id" :: "last_sync" :: H.map normalizeHeader ∧
    (∀ (j : Nat) (hj : j < H.length) (hr : j < R.length),
      objLookup (normalizeHeader (H.get ⟨j, hj⟩))
          (mapSheetRowToLeadObject H R idx ts) =
        some (.str (R.get ⟨j, hr⟩))) ∧
    (∀ (j : Nat) (hj : j < H.length), R.length ≤ j →
      objLookup (normalizeHeader (H.get ⟨j, hj⟩))
          (mapSheetRowToLeadObject H R idx ts) =
        some .null) := by
  have hbase : ∀ h ∈ H,
      normalizeHeader h ∉
        objKeys [("sheet_row_id", CellVal.str (Nat.repr idx)),
          ("last_sync", CellVal.str ts)] := by
    intro h hm
    have hmem := List.mem_map_of_mem normalizeHeader hm
    simp only [objKeys, List.map_cons, List.map_nil, List.mem_cons,
      List.not_mem_nil, or_false, not_or]
    exact ⟨fun heq => h1 (heq ▸ hmem), fun heq => h2 (heq ▸ hmem)⟩
  refine ⟨?_, ?_, ?_⟩
  · rw [mapSheetRowToLeadObject, objKeys_mapFields R H 0 _ hnd hbase]
    rfl
  · intro j hj hr
    rw [mapSheetRowToLeadObject, objLookup_mapFields_self R H 0 _ hnd hbase j hj]
    simp [cellAt, List.getElem?_eq_getElem hr]
  · intro j hj hr
    rw [mapSheetRowToLeadObject, objLookup_mapFields_self R H 0 _ hnd hbase j hj]
    simp [cellAt, List.getElem?_eq_none hr]

/-- Witness for C6 (amended): header `["Full Name", "Email"]` against the
ragged row `["Ann"]` gives the base keys followed by `full_name` and
`email`, with `full_name ↦ "Ann"` and `email ↦ null`. -/
theorem c6_witness :
    ((["Full Name", "Email"].map normalizeHeader).Nodup ∧
      "sheet_row_id" ∉ ["Full Name", "Email"].map normalizeHeader ∧
      "last_sync" ∉ ["Full Name", "Email"].map normalizeHeader) ∧
    objKeys (mapSheetRowToLeadObject ["Full Name", "Email"] ["Ann"] 2 "t") =
      "sheet_row_id" :: "last_sync" ::
        ["Full Name", "Email"].map normalizeHeader :=
  ⟨⟨by decide, by decide, by decide⟩,
    (c6_amended ["Full Name", "Email"] ["Ann"] 2 "t" (by decide) (by decide)
      (by decide)).1⟩

/-! Timestamps of mapped records. -/

/-- When the fetch succeeds, the pass submits exactly one write call whose
payload is the mapped leads, and reports the first clock reading as its
start time (whether or not the write then fails). -/
theorem sync_writeCalls_of_fetch_ok (env : Env) (store : List Obj)
    (clock : Nat → String) (opts : SyncOptions) (tr : List ReadCall)
    (items : List FetchItem)
    (h : fetchSheetData env opts.sheetName opts.batchSize = (tr, .ok items)) :
    (syncSheetsToSupabase env store clock opts).writeCalls =
      [mapLeads clock 0 items] ∧
    (syncSheetsToSupabase env store clock opts).result.syncStartTime =
      clock 0 := by
  cases hw : env.writeFails <;>
    simp [syncSheetsToSupabase, h, writeLeadsToSupabase, hw,
      SyncResult.syncStartTime]

/-- The j-th mapped lead carries the clock reading drawn when it was mapped,
provided no header column itself normalizes to `last_sync`. -/
theorem objLookup_last_sync_mapLeads (clock : Nat → String) :
    ∀ (items : List FetchItem) (i j : Nat) (lead : Obj),
      (mapLeads clock i items).get? j = some lead →
      (∀ it ∈ items, "last_sync" ∉ it.headerRow.map normalizeHeader) →
      objLookup "last_sync" lead = some (.str (clock (1 + i + j))) := by
  intro items
  induction items with
  | nil => intro i j lead hlead _; simp [mapLeads] at hlead
  | cons it rest ih =>
      intro i j lead hlead hno
      match j with
      | 0 =>
          simp only [mapLeads, List.get?_cons_zero, Option.some.injEq] at hlead
          rw [← hlead,
            objLookup_last_sync_mapRow _ _ _ _
              (hno it (List.mem_cons_self _ _))]
          simp
      | j + 1 =>
          simp only [mapLeads, List.get?_cons_succ] at hlead
          have := ih (i + 1) j lead hlead
            fun x hm => hno x (List.mem_cons_of_mem _ hm)
          have harith : 1 + (i + 1) + j = 1 + i + (j + 1) := by omega
          rwa [harith] at this

/-- C4 (amended): a record produced in a sync pass carries as `last_sync`
the fresh wall-clock reading drawn at the moment that record was mapped —
for the j-th record of the pass, the (j+2)-th reading, the start time being
the first — and not the `syncStartTime` captured at the beginning of
`runSync`; records of one pass may therefore carry different values.
(Stated for sheets where no header column itself normalizes to
`last_sync`, which would overwrite the timestamp with cell data.) -/
theorem c4_amended (env : Env) (store : List Obj) (clock : Nat → String)
    (opts : SyncOptions) (tr : List ReadCall) (items : List FetchItem)
    (hfetch : fetchSheetData env opts.sheetName opts.batchSize =
      (tr, .ok items))
    (hno : ∀ it ∈ items, "last_sync" ∉ it.headerRow.map normalizeHeader)
    (j : Nat) (lead : Obj)
    (hlead : ((syncSheetsToSupabase env store clock opts).writeCalls.headD
      []).get? j = some lead) :
    objLookup "last_sync" lead = some (.str (clock (1 + j))) ∧
    (syncSheetsToSupabase env store clock opts).result.syncStartTime =
      clock 0 := by
  obtain ⟨hcalls, hstart⟩ :=
    sync_writeCalls_of_fetch_ok env store clock opts tr items hfetch
  rw [hcalls] at hlead
  simp only [List.headD_cons] at hlead
  exact ⟨by
    have := objLookup_last_sync_mapLeads clock items 0 j lead hlead hno
    simpa using this, hstart⟩

/-- Witness for C4 (amended): in the two-record pass over the example sheet
with the observable clock, Alice's record (j = 0) carries the second clock
reading `natClock 1` while the pass start time is `natClock 0`. -/
theorem c4_witness :
    objLookup "last_sync"
        [("sheet_row_id", .str "2"), ("last_sync", .str "1"),
          ("name", .str "Alice"), ("email", .str "a@x.com")] =
      some (.str (natClock (1 + 0))) ∧
    (syncSheetsToSupabase envThreeRows [] natClock
      ⟨"Sheet1", 50, false⟩).result.syncStartTime = natClock 0 :=
  c4_amended envThreeRows [] natClock ⟨"Sheet1", 50, false⟩
    [.header "Sheet1", .metadata "Sheet1", .range "Sheet1" 2 3]
    [⟨["Name", "Email"], ["Alice", "a@x.com"], 2⟩,
      ⟨["Name", "Email"], ["Bob", "b@x.com"], 3⟩]
    (by decide) (by decide) 0
    [("sheet_row_id", .str "2"), ("last_sync", .str "1"),
      ("name", .str "Alice"), ("email", .str "a@x.com")]
    (by decide)

/-! Two passes over an unchanged sheet. -/

/-- Two records with the same keys in the same order whose values agree at
every key other than `last_sync`. -/
def AgreeExceptLastSync (o1 o2 : Obj) : Prop :=
  objKeys o1 = objKeys o2 ∧
  ∀ k, k ≠ "last_sync" → objLookup k o1 = objLookup k o2

/-- Assigning the same key/value on both sides preserves agreement. -/
theorem agreeExcept_objSet (o1 o2 : Obj) (k : String) (v : CellVal)
    (h : AgreeExceptLastSync o1 o2) :
    AgreeExceptLastSync (objSet o1 k v) (objSet o2 k v) := by
  constructor
  · rw [objKeys_objSet, objKeys_objSet, h.1]
  · intro k₁ hk₁
    by_cases hkk : k₁ = k
    · subst hkk
      rw [objLookup_objSet_self, objLookup_objSet_self]
    · rw [objLookup_objSet_ne _ _ _ _ hkk, objLookup_objSet_ne _ _ _ _ hkk,
        h.2 k₁ hk₁]

/-- The header loop preserves agreement when run over the same headers and
row on both sides. -/
theorem agreeExcept_mapFields (R : List String) :
    ∀ (H : List String) (i : Nat) (o1 o2 : Obj),
      AgreeExceptLastSync o1 o2 →
      AgreeExceptLastSync (mapFields R i H o1) (mapFields R i H o2) := by
  intro H
  induction H with
  | nil => intro i o1 o2 h; exact h
  | cons hd tl ih =>
      intro i o1 o2 h
      simp only [mapFields]
      exact ih (i + 1) _ _ (agreeExcept_objSet o1 o2 _ _ h)

/-- Mapping the same sheet row with two different timestamps yields records
that agree except at `last_sync`. -/
theorem agreeExcept_mapRow (H R : List String) (idx : Nat) (t1 t2 : String) :
    AgreeExceptLastSync (mapSheetRowToLeadObject H R idx t1)
      (mapSheetRowToLeadObject H R idx t2) := by
  unfold mapSheetRowToLeadObject
  refine agreeExcept_mapFields R H 0 _ _ ⟨rfl, ?_⟩
  intro k hk
  by_cases h1 : "sheet_row_id" = k
  · simp [objLookup, h1]
  · have h2 : ¬("last_sync" = k) := fun hh => hk hh.symm
    simp [objLookup, h1, h2]

/-- Mapping the same fetched items under two clocks gives pointwise
agreement except at `last_sync`. -/
theorem forall₂_mapLeads (c1 c2 : Nat → String) :
    ∀ (items : List FetchItem) (i1 i2 : Nat),
      List.Forall₂ AgreeExceptLastSync (mapLeads c1 i1 items)
        (mapLeads c2 i2 items) := by
  intro items
  induction items with
  | nil => intro i1 i2; exact List.Forall₂.nil
  | cons it rest ih =>
      intro i1 i2
      exact List.Forall₂.cons (agreeExcept_mapRow _ _ _ _ _) (ih _ _)

/-- A store with no two records sharing a conflict key. -/
def UniqueIds (s : List Obj) : Prop :=
  s.Pairwise fun a b => sameId a b = false

/-- Conflict-key equality transfers along a shared middle record. -/
theorem sameId_trans_left (r l b : Obj) (hrl : sameId r l = true)
    (hlb : sameId l b = true) : sameId r b = true := by
  cases hr : objLookup "sheet_row_id" r with
  | none => simp [sameId, hr] at hrl
  | some vr =>
    cases vr with
    | null => simp [sameId, hr] at hrl
    | str x =>
      cases hl : objLookup "sheet_row_id" l with
      | none => simp [sameId, hl] at hrl
      | some vl =>
        cases vl with
        | null => simp [sameId, hl] at hrl
        | str y =>
          cases hb : objLookup "sheet_row_id" b with
          | none => simp [sameId, hb] at hlb
          | some vb =>
            cases vb with
            | null => simp [sameId, hb] at hlb
            | str z =>
                simp only [sameId, hr, hl, hb, decide_eq_true_eq] at hrl hlb ⊢
                exact hrl.trans hlb

/-- Upserting a record yields either the record itself or a record already
in the store. -/
theorem mem_upsertOne (s : List Obj) (lead b : Obj)
    (h : b ∈ upsertOne s lead) : b = lead ∨ b ∈ s := by
  induction s with
  | nil =>
      simp only [upsertOne, List.mem_singleton] at h
      exact Or.inl h
  | cons r rest ih =>
      simp only [upsertOne] at h
      by_cases hs : sameId r lead = true
      · rw [if_pos hs] at h
        rcases List.mem_cons.mp h with hbe | hbm
        · exact Or.inl hbe
        · exact Or.inr (List.mem_cons_of_mem _ hbm)
      · rw [if_neg hs] at h
        rcases List.mem_cons.mp h with hbe | hbm
        · exact Or.inr (hbe ▸ List.mem_cons_self _ _)
        · rcases ih hbm with hbe | hbm'
          · exact Or.inl hbe
          · exact Or.inr (List.mem_cons_of_mem _ hbm')

/-- A single upsert keeps the store free of duplicate conflict keys. -/
theorem uniqueIds_upsertOne (s : List Obj) (lead : Obj) (h : UniqueIds s) :
    UniqueIds (upsertOne s lead) := by
  induction s with
  | nil =>
      simp only [upsertOne]
      exact List.pairwise_singleton _ _
  | cons r rest ih =>
      rw [UniqueIds, List.pairwise_cons] at h
      obtain ⟨hr, hrest⟩ := h
      simp only [upsertOne]
      by_cases hs : sameId r lead = true
      · rw [if_pos hs, UniqueIds, List.pairwise_cons]
        refine ⟨fun b hb => ?_, hrest⟩
        cases hlb : sameId lead b with
        | false => rfl
        | true =>
            exact absurd (sameId_trans_left r lead b hs hlb)
              (by simp [hr b hb])
      · rw [if_neg hs, UniqueIds, List.pairwise_cons]
        refine ⟨fun b hb => ?_, ih hrest⟩
        rcases mem_upsertOne rest lead b hb with hbe | hbm
        · subst hbe
          exact Bool.eq_false_iff.mpr hs
        · exact hr b hbm

/-- The bulk upsert keeps the store free of duplicate conflict keys. -/
theorem uniqueIds_upsertAll (leads : List Obj) :
    ∀ s : List Obj, UniqueIds s → UniqueIds (upsertAll s leads) := by
  induction leads with
  | nil => intro s h; exact h
  | cons l rest ih => intro s h; exact ih _ (uniqueIds_upsertOne s l h)

/-- When the fetch succeeds and the store accepts the write, the pass's
full outcome: one write call, the store after the bulk upsert, and the
success result. -/
theorem sync_of_fetch_ok (env : Env) (store : List Obj)
    (clock : Nat → String) (opts : SyncOptions) (tr : List ReadCall)
    (items : List FetchItem)
    (h : fetchSheetData env opts.sheetName opts.batchSize = (tr, .ok items))
    (hw : env.writeFails = false) :
    syncSheetsToSupabase env store clock opts =
      ⟨.ok (clock 0) (clock (1 + (mapLeads clock 0 items).length))
          (mapLeads clock 0 items).length,
        [mapLeads clock 0 items],
        upsertAll store (mapLeads clock 0 items), tr⟩ := by
  simp [syncSheetsToSupabase, h, writeLeadsToSupabase, hw]

/-- C2: two consecutive passes over the unchanged sheet submit payloads that
agree record-by-record on every field except `last_sync`, and after both
passes the store holds at most one record per conflict key (starting from a
store satisfying its own uniqueness constraint, as the table's unique index
on `sheet_row_id` guarantees); the upsert never creates duplicates. -/
theorem c2_two_passes_idempotent (env : Env) (opts : SyncOptions)
    (clock1 clock2 : Nat → String) (store0 : List Obj)
    (hw : env.writeFails = false) (hu : UniqueIds store0) :
    List.Forall₂ (List.Forall₂ AgreeExceptLastSync)
      (syncSheetsToSupabase env store0 clock1 opts).writeCalls
      (syncSheetsToSupabase env
        (syncSheetsToSupabase env store0 clock1 opts).store clock2
        opts).writeCalls ∧
    UniqueIds (syncSheetsToSupabase env
      (syncSheetsToSupabase env store0 clock1 opts).store clock2
      opts).store := by
  rcases hfe : fetchSheetData env opts.sheetName opts.batchSize with ⟨tr, res⟩
  cases res with
  | error e =>
      have h1 := sync_of_fetch_error env store0 clock1 opts tr e hfe
      have hs1 : (syncSheetsToSupabase env store0 clock1 opts).store = store0 := by
        rw [h1]
      have hc1 : (syncSheetsToSupabase env store0 clock1 opts).writeCalls = [] := by
        rw [h1]
      rw [hs1, hc1]
      have h2 := sync_of_fetch_error env store0 clock2 opts tr e hfe
      have hs2 : (syncSheetsToSupabase env store0 clock2 opts).store = store0 := by
        rw [h2]
      have hc2 : (syncSheetsToSupabase env store0 clock2 opts).writeCalls = [] := by
        rw [h2]
      rw [hs2, hc2]
      exact ⟨List.Forall₂.nil, hu⟩
  | ok items =>
      have h1 := sync_of_fetch_ok env store0 clock1 opts tr items hfe hw
      have hs1 : (syncSheetsToSupabase env store0 clock1 opts).store =
          upsertAll store0 (mapLeads clock1 0 items) := by rw [h1]
      have hc1 : (syncSheetsToSupabase env store0 clock1 opts).writeCalls =
          [mapLeads clock1 0 items] := by rw [h1]
      rw [hs1, hc1]
      have h2 := sync_of_fetch_ok env (upsertAll store0 (mapLeads clock1 0 items))
        clock2 opts tr items hfe hw
      have hs2 : (syncSheetsToSupabase env
          (upsertAll store0 (mapLeads clock1 0 items)) clock2 opts).store =
          upsertAll (upsertAll store0 (mapLeads clock1 0 items))
            (mapLeads clock2 0 items) := by rw [h2]
      have hc2 : (syncSheetsToSupabase env
          (upsertAll store0 (mapLeads clock1 0 items)) clock2 opts).writeCalls =
          [mapLeads clock2 0 items] := by rw [h2]
      rw [hs2, hc2]
      exact ⟨List.Forall₂.cons (forall₂_mapLeads clock1 clock2 items 0 0)
        List.Forall₂.nil,
        uniqueIds_upsertAll _ _ (uniqueIds_upsertAll _ _ hu)⟩

/-- Witness for C2: two passes over the example sheet from the empty store,
under two different clocks. -/
theorem c2_witness :
    envThreeRows.writeFails = false ∧ UniqueIds [] ∧
    (List.Forall₂ (List.Forall₂ AgreeExceptLastSync)
      (syncSheetsToSupabase envThreeRows [] natClock
        ⟨"Sheet1", 2, false⟩).writeCalls
      (syncSheetsToSupabase envThreeRows
        (syncSheetsToSupabase envThreeRows [] natClock
          ⟨"Sheet1", 2, false⟩).store (fun _ => "T")
        ⟨"Sheet1", 2, false⟩).writeCalls ∧
    UniqueIds (syncSheetsToSupabase envThreeRows
      (syncSheetsToSupabase envThreeRows [] natClock
        ⟨"Sheet1", 2, false⟩).store (fun _ => "T")
      ⟨"Sheet1", 2, false⟩).store) :=
  ⟨rfl, List.Pairwise.nil,
    c2_two_passes_idempotent envThreeRows ⟨"Sheet1", 2, false⟩ natClock
      (fun _ => "T") [] rfl List.Pairwise.nil⟩

/-! Row indices produced by the batch loop. -/

/-- Items of one batch: header attached, consecutive row indices from the
batch's start row. -/
theorem itemsFrom_spec (header : List String) :
    ∀ (rows : List (List String)) (i : Nat),
      (∀ it ∈ itemsFrom header i rows,
        i ≤ it.rowIndex ∧ it.rowIndex < i + rows.length ∧
          it.headerRow = header) ∧
      List.Chain' (· < ·) ((itemsFrom header i rows).map FetchItem.rowIndex) := by
  intro rows
  induction rows with
  | nil => intro i; exact ⟨by simp [itemsFrom], by simp [itemsFrom]⟩
  | cons row rest ih =>
      intro i
      constructor
      · intro it hit
        simp only [itemsFrom, List.mem_cons] at hit
        rcases hit with he | hm
        · subst he
          exact ⟨Nat.le_refl _, by simp, rfl⟩
        · obtain ⟨hle, hlt, hh⟩ := (ih (i + 1)).1 it hm
          exact ⟨by omega, by simp only [List.length_cons]; omega, hh⟩
      · simp only [itemsFrom, List.map_cons]
        rw [List.chain'_cons']
        refine ⟨fun y hy => ?_, (ih (i + 1)).2⟩
        have hmem : y ∈ (itemsFrom header (i + 1) rest).map FetchItem.rowIndex :=
          List.mem_of_mem_head? hy
        obtain ⟨it, hit, rfl⟩ := List.mem_map.mp hmem
        have := (ih (i + 1)).1 it hit
        omega

/-- The batch loop only ever produces items at or after its current start
row, with the fetched header attached and strictly ascending row indices:
each batch's indices are consecutive from its start row, the next batch
starts `batchSize` later, and a short (clipped) batch still stays below the
next start. -/
theorem fetchBatches_ok_spec (env : Env) (sh : Sheet) (sheetName : String)
    (header : List String) (batchSize totalRows : Nat) :
    ∀ (fuel startRow : Nat) (calls : List ReadCall) (items : List FetchItem),
      1 ≤ startRow →
      fetchBatches env sh sheetName header batchSize totalRows fuel startRow =
        (calls, .ok items) →
      (∀ it ∈ items, startRow ≤ it.rowIndex ∧ it.headerRow = header) ∧
      List.Chain' (· < ·) (items.map FetchItem.rowIndex) := by
  intro fuel
  induction fuel with
  | zero =>
      intro startRow calls items hs h
      simp only [fetchBatches, Prod.mk.injEq, Except.ok.injEq] at h
      obtain ⟨-, h2⟩ := h
      subst h2
      exact ⟨by simp, by simp⟩
  | succ fuel ih =>
      intro startRow calls items hs h
      simp only [fetchBatches] at h
      by_cases hlt : startRow < totalRows
      · rw [if_pos hlt] at h
        by_cases hfail : env.failAt startRow = true
        · rw [if_pos hfail] at h
          simp at h
        · rw [if_neg hfail] at h
          by_cases hemp : (valuesGet sh startRow
              (min (startRow + batchSize - 1) totalRows)).isEmpty = true
          · rw [if_pos hemp] at h
            simp only [Prod.mk.injEq, Except.ok.injEq] at h
            obtain ⟨-, h2⟩ := h
            subst h2
            exact ⟨by simp, by simp⟩
          · rw [if_neg hemp] at h
            rcases hres : fetchBatches env sh sheetName header batchSize
              totalRows fuel (startRow + batchSize) with ⟨calls', res2⟩
            rw [hres] at h
            cases res2 with
            | error e => simp [Except.map] at h
            | ok rest =>
                simp only [Except.map, Prod.mk.injEq, Except.ok.injEq] at h
                obtain ⟨-, h2⟩ := h
                subst h2
                have hrec : fetchBatches env sh sheetName header batchSize
                    totalRows fuel (startRow + batchSize) =
                    (calls', .ok rest) := hres
                obtain ⟨hmemR, hchainR⟩ := ih (startRow + batchSize) calls'
                  rest (by omega) hrec
                set rows := valuesGet sh startRow
                  (min (startRow + batchSize - 1) totalRows) with hrows
                have hlen0 : rows.length ≤
                    min (startRow + batchSize - 1) totalRows + 1 - startRow := by
                  rw [hrows]
                  simp only [valuesGet, List.length_take]
                  omega
                have hlenpos : rows.length ≠ 0 := by
                  intro hz
                  rw [List.isEmpty_iff, ← List.length_eq_zero] at hemp
                  exact hemp hz
                have hlen : rows.length ≤ batchSize := by
                  rcases Nat.eq_zero_or_pos batchSize with hbz | hbz
                  · exfalso
                    apply hlenpos
                    omega
                  · omega
                obtain ⟨hA, hAchain⟩ := itemsFrom_spec header rows startRow
                constructor
                · intro it hit
                  rcases List.mem_append.mp hit with hm | hm
                  · obtain ⟨h1, -, h3⟩ := hA it hm
                    exact ⟨h1, h3⟩
                  · obtain ⟨h1, h3⟩ := hmemR it hm
                    exact ⟨by omega, h3⟩
                · rw [List.map_append]
                  refine hAchain.append hchainR fun x hx y hy => ?_
                  have hxm : x ∈ (itemsFrom header startRow rows).map
                      FetchItem.rowIndex := List.mem_of_mem_getLast? hx
                  have hym : y ∈ rest.map FetchItem.rowIndex :=
                    List.mem_of_mem_head? hy
                  obtain ⟨itx, hitx, rfl⟩ := List.mem_map.mp hxm
                  obtain ⟨ity, hity, rfl⟩ := List.mem_map.mp hym
                  obtain ⟨-, hxlt, -⟩ := hA itx hitx
                  obtain ⟨hyge, -⟩ := hmemR ity hity
                  omega
      · rw [if_neg hlt] at h
        simp only [Prod.mk.injEq, Except.ok.injEq] at h
        obtain ⟨-, h2⟩ := h
        subst h2
        exact ⟨by simp, by simp⟩

/-- A successful fetch yields items with strictly ascending row indices, all
at or after row 2. -/
theorem fetchSheetData_ok_spec (env : Env) (name : String) (bs : Nat)
    (tr : List ReadCall) (items : List FetchItem)
    (h : fetchSheetData env name bs = (tr, .ok items)) :
    (∀ it ∈ items, 2 ≤ it.rowIndex) ∧
    List.Chain' (· < ·) (items.map FetchItem.rowIndex) := by
  unfold fetchSheetData at h
  cases hsh : env.sheets.lookup name with
  | none => rw [hsh] at h; simp at h
  | some sh =>
      simp only [hsh] at h
      cases hhd : (valuesGet sh 1 1).head? with
      | none => simp only [hhd] at h; simp at h
      | some header =>
          simp only [hhd] at h
          rcases hfb : fetchBatches env sh name header bs sh.rowCount
            sh.rowCount 2 with ⟨calls, res⟩
          rw [hfb] at h
          simp only [Prod.mk.injEq] at h
          obtain ⟨-, h2⟩ := h
          cases res with
          | error e => exact absurd h2 (by simp)
          | ok l =>
              have hli : l = items := by
                simpa using h2
              subst hli
              obtain ⟨hmem, hchain⟩ := fetchBatches_ok_spec env sh name header
                bs sh.rowCount sh.rowCount 2 calls l (by omega) hfb
              exact ⟨fun it hit => (hmem it hit).1, hchain⟩

/-! Injectivity of the decimal numeral printer used for `sheet_row_id`. -/

/-- The numeric value of a decimal digit character. -/
def charToDigit (c : Char) : Nat := c.toNat - '0'.toNat

/-- The number a digit string denotes, most significant digit first. -/
def decVal (l : List Char) : Nat :=
  l.foldl (fun acc c => acc * 10 + charToDigit c) 0

/-- Reading one more trailing digit multiplies the value by ten. -/
theorem decVal_append_singleton (l : List Char) (c : Char) :
    decVal (l ++ [c]) = decVal l * 10 + charToDigit c := by
  simp [decVal, List.foldl_append]

/-- The digit accumulator of the core printer prepends to its tail. -/
theorem toDigitsCore_append : ∀ (fuel n : Nat) (ds : List Char),
    Nat.toDigitsCore 10 fuel n ds = Nat.toDigitsCore 10 fuel n [] ++ ds := by
  intro fuel
  induction fuel with
  | zero => intro n ds; simp [Nat.toDigitsCore]
  | succ fuel ih =>
      intro n ds
      simp only [Nat.toDigitsCore]
      by_cases h : n / 10 = 0
      · rw [if_pos h, if_pos h]
        rfl
      · rw [if_neg h, if_neg h,
          ih (n / 10) (Nat.digitChar (n % 10) :: ds),
          ih (n / 10) [Nat.digitChar (n % 10)]]
        simp

/-- With enough fuel, the core printer's output denotes its input. -/
theorem decVal_toDigitsCore : ∀ (fuel n : Nat), n < fuel →
    decVal (Nat.toDigitsCore 10 fuel n []) = n := by
  intro fuel
  induction fuel with
  | zero => intro n h; omega
  | succ fuel ih =>
      intro n h
      have hdig : ∀ m : Nat, m < 10 → charToDigit (Nat.digitChar m) = m := by
        decide
      simp only [Nat.toDigitsCore]
      by_cases hd : n / 10 = 0
      · rw [if_pos hd]
        have hn : n < 10 := by omega
        show decVal [Nat.digitChar (n % 10)] = n
        have hmod : n % 10 = n := Nat.mod_eq_of_lt hn
        rw [hmod]
        simp [decVal, hdig n hn]
      · rw [if_neg hd,
          toDigitsCore_append fuel (n / 10) [Nat.digitChar (n % 10)],
          decVal_append_singleton]
        have hlt : n / 10 < fuel := by
          have h1 : n / 10 < n := Nat.div_lt_self (by omega) (by omega)
          omega
        rw [ih (n / 10) hlt, hdig (n % 10) (Nat.mod_lt n (by omega))]
        omega

/-- Two numbers with the same decimal numeral are equal. -/
theorem natRepr_inj (m n : Nat) (h : Nat.repr m = Nat.repr n) : m = n := by
  have hdata : Nat.toDigitsCore 10 (m + 1) m [] =
      Nat.toDigitsCore 10 (n + 1) n [] := by
    have hd := congrArg String.data h
    simpa [Nat.repr, Nat.toDigits, List.asString] using hd
  have h1 := decVal_toDigitsCore (m + 1) m (by omega)
  have h2 := decVal_toDigitsCore (n + 1) n (by omega)
  rw [hdata] at h1
  exact h1.symm.trans h2

/-- The identifiers of the mapped payload, in order, are the decimal row
index strings, provided no header column normalizes to `sheet_row_id`. -/
theorem mapLeads_ids (clock : Nat → String) :
    ∀ (items : List FetchItem) (i : Nat),
      (∀ it ∈ items, "sheet_row_id" ∉ it.headerRow.map normalizeHeader) →
      (mapLeads clock i items).map (objLookup "sheet_row_id") =
        items.map fun it => some (.str (Nat.repr it.rowIndex)) := by
  intro items
  induction items with
  | nil => intro i _; rfl
  | cons it rest ih =>
      intro i hno
      simp only [mapLeads, List.map_cons]
      rw [objLookup_sheet_row_id_mapRow _ _ _ _
          (hno it (List.mem_cons_self _ _)),
        ih (i + 1) fun x hm => hno x (List.mem_cons_of_mem _ hm)]

/-- C10 (amended): in a pass whose fetch succeeds, the fetched row indices
are strictly ascending (batch ranges do not overlap) and — provided no
header cell normalizes to `sheet_row_id`, which would overwrite the
identifier with cell data — the upsert payload's identifiers are exactly the
decimal strings of `startRow + index` for those rows, hence pairwise
distinct: the payload never holds two records with the same conflict key. -/
theorem c10_amended (env : Env) (store : List Obj) (clock : Nat → String)
    (opts : SyncOptions) (tr : List ReadCall) (items : List FetchItem)
    (hfetch : fetchSheetData env opts.sheetName opts.batchSize =
      (tr, .ok items))
    (hno : ∀ it ∈ items, "sheet_row_id" ∉ it.headerRow.map normalizeHeader) :
    List.Chain' (· < ·) (items.map FetchItem.rowIndex) ∧
    ((syncSheetsToSupabase env store clock opts).writeCalls.headD []).map
        (objLookup "sheet_row_id") =
      items.map (fun it => some (.str (Nat.repr it.rowIndex))) ∧
    (((syncSheetsToSupabase env store clock opts).writeCalls.headD []).map
        (objLookup "sheet_row_id")).Pairwise (· ≠ ·) := by
  obtain ⟨hcalls, -⟩ :=
    sync_writeCalls_of_fetch_ok env store clock opts tr items hfetch
  rw [hcalls]
  simp only [List.headD_cons]
  obtain ⟨-, hchain⟩ :=
    fetchSheetData_ok_spec env opts.sheetName opts.batchSize tr items hfetch
  have hids := mapLeads_ids clock items 0 hno
  refine ⟨hchain, hids, ?_⟩
  rw [hids]
  have hpair : (items.map FetchItem.rowIndex).Pairwise (· < ·) :=
    List.chain'_iff_pairwise.mp hchain
  have hmapmap :
      (items.map fun it => some (CellVal.str (Nat.repr it.rowIndex))) =
      (items.map FetchItem.rowIndex).map
        fun k => some (CellVal.str (Nat.repr k)) := by
    simp [List.map_map, Function.comp]
  rw [hmapmap]
  refine List.Pairwise.map _ ?_ hpair
  intro a b hab heq
  simp only [Option.some.injEq, CellVal.str.injEq] at heq
  exact absurd (natRepr_inj a b heq) (Nat.ne_of_lt hab)

/-- Witness for C10 (amended): the two-batch pass over the example sheet
yields ascending indices 2, 3 and the distinct identifiers "2", "3". -/
theorem c10_witness :
    List.Chain' (· < ·)
      (([⟨["Name", "Email"], ["Alice", "a@x.com"], 2⟩,
        ⟨["Name", "Email"], ["Bob", "b@x.com"], 3⟩] :
          List FetchItem).map FetchItem.rowIndex) ∧
    ((syncSheetsToSupabase envThreeRows [] natClock
        ⟨"Sheet1", 2, false⟩).writeCalls.headD []).map
        (objLookup "sheet_row_id") =
      ([⟨["Name", "Email"], ["Alice", "a@x.com"], 2⟩,
        ⟨["Name", "Email"], ["Bob", "b@x.com"], 3⟩] :
          List FetchItem).map
        (fun it => some (.str (Nat.repr it.rowIndex))) ∧
    (((syncSheetsToSupabase envThreeRows [] natClock
        ⟨"Sheet1", 2, false⟩).writeCalls.headD []).map
        (objLookup "sheet_row_id")).Pairwise (· ≠ ·) :=
  c10_amended envThreeRows [] natClock ⟨"Sheet1", 2, false⟩
    [.header "Sheet1", .metadata "Sheet1", .range "Sheet1" 2 3]
    [⟨["Name", "Email"], ["Alice", "a@x.com"], 2⟩,
      ⟨["Name", "Email"], ["Bob", "b@x.com"], 3⟩]
    (by decide) (by decide)

end SheetsDialer
